import Mathlib

/-!
Shallow embedding of the fluent-wysiwyg-editor repository.

The repository is a React glue layer (`src/app/src/MarkdownParser.ts`,
`src/app/src/Parser.ts`) over the draft-js rich-text framework and the
markdown-draft-js conversion library.  The glue code (conversion adapter
wiring, toolbar handlers, indicator synchronization, key handling) is
translated directly from the source.  The external libraries themselves are
not part of the repository; where a claim depends on their behaviour the
definitions below model them, and each such definition carries a doc comment
starting with `Modelled from the spec:`.
-/

namespace FluentWysiwyg

/-- The three inline styles the editor toolbar can toggle
(`BOLD`, `ITALIC`, `UNDERLINE` in the source). -/
inductive InlineStyle
  | BOLD
  | ITALIC
  | UNDERLINE
deriving DecidableEq, BEq, Repr

/-- The set of inline styles attached to one character
(draft-js `DraftInlineStyle`, restricted to the three styles the editor uses). -/
structure Styles where
  bold : Bool := false
  italic : Bool := false
  underline : Bool := false
deriving DecidableEq, Repr

/-- Membership test of a style in a style set (draft-js `OrderedSet.has`). -/
def Styles.has (s : Styles) : InlineStyle → Bool
  | .BOLD => s.bold
  | .ITALIC => s.italic
  | .UNDERLINE => s.underline

/-- Setting a style to present or absent
(draft-js `OrderedSet.add` / `OrderedSet.remove`). -/
def Styles.set (s : Styles) : InlineStyle → Bool → Styles
  | .BOLD, v => { s with bold := v }
  | .ITALIC, v => { s with italic := v }
  | .UNDERLINE, v => { s with underline := v }

/-- One character of a content block together with its character metadata:
style set and optional link entity, the link entity carrying its url
(draft-js `CharacterMetadata`; the LINK entity's data is its url). -/
structure CMeta where
  ch : Char
  styles : Styles := {}
  entity : Option (List Char) := none
deriving DecidableEq, Repr

instance : Inhabited CMeta := ⟨⟨' ', {}, none⟩⟩

/-- A draft-js `ContentBlock`: block type string, characters with metadata,
and list depth. -/
structure ContentBlock where
  btype : String := "unstyled"
  chars : List CMeta := []
  depth : Nat := 0
deriving DecidableEq, Repr

instance : Inhabited ContentBlock := ⟨{}⟩

/-- A draft-js `ContentState`: the ordered list of content blocks. -/
structure ContentState where
  blocks : List ContentBlock
deriving DecidableEq, Repr

/-- A draft-js `SelectionState`; block keys are modelled by block indices. -/
structure SelectionState where
  anchorBlock : Nat
  anchorOffset : Nat
  focusBlock : Nat
  focusOffset : Nat
deriving DecidableEq, Repr

/-- Whether the selection is backward (focus before anchor). -/
def SelectionState.isBackward (s : SelectionState) : Bool :=
  s.focusBlock < s.anchorBlock ||
    (s.focusBlock == s.anchorBlock && s.focusOffset < s.anchorOffset)

/-- The selection start block (draft-js `getStartKey`). -/
def SelectionState.startBlockIdx (s : SelectionState) : Nat :=
  if s.isBackward then s.focusBlock else s.anchorBlock

/-- The selection start offset (draft-js `getStartOffset`). -/
def SelectionState.startOffsetIdx (s : SelectionState) : Nat :=
  if s.isBackward then s.focusOffset else s.anchorOffset

/-- The selection end block (draft-js `getEndKey`). -/
def SelectionState.endBlockIdx (s : SelectionState) : Nat :=
  if s.isBackward then s.anchorBlock else s.focusBlock

/-- The selection end offset (draft-js `getEndOffset`). -/
def SelectionState.endOffsetIdx (s : SelectionState) : Nat :=
  if s.isBackward then s.anchorOffset else s.focusOffset

/-- Whether the selection is collapsed (draft-js `isCollapsed`). -/
def SelectionState.isCollapsed (s : SelectionState) : Bool :=
  s.anchorBlock == s.focusBlock && s.anchorOffset == s.focusOffset

/-- A draft-js `EditorState`: current content, current selection and the
inline style override used for collapsed-selection style toggling. -/
structure EditorState where
  content : ContentState
  selection : SelectionState
  styleOverride : Option Styles := none
deriving DecidableEq, Repr

/-- A raw inline style range (draft-js `RawDraftInlineStyleRange`). -/
structure RawStyleRange where
  offset : Nat
  length : Nat
  style : InlineStyle
deriving DecidableEq, Repr

/-- A raw entity range; the LINK entity is identified with its url
(draft-js `RawDraftEntityRange` plus the entity map entry). -/
structure RawEntityRange where
  offset : Nat
  length : Nat
  url : List Char
deriving DecidableEq, Repr

/-- A raw content block (draft-js `RawDraftContentBlock`). -/
structure RawBlock where
  btype : String := "unstyled"
  text : List Char := []
  inlineStyleRanges : List RawStyleRange := []
  entityRanges : List RawEntityRange := []
  depth : Nat := 0
deriving DecidableEq, Repr

/-- A raw content state (draft-js `RawDraftContentState`). -/
structure RawDraftContentState where
  blocks : List RawBlock
deriving DecidableEq, Repr

/-- The keyboard event fields `RichUtils.onTab` inspects. -/
structure TabEvent where
  shiftKey : Bool := false
deriving DecidableEq, Repr

/-- The draft-js `DraftHandleValue` returned by key handlers. -/
inductive DraftHandleValue
  | handled
  | notHandled
deriving DecidableEq, Repr

/-- The `contentType` prop of the `TextEditor` component
(`'markdown' | 'html'`). -/
inductive EditorContentType
  | markdown
  | html
deriving DecidableEq, Repr

/-! ### Generic list helpers -/

/-- Map a function over a list together with the index of each element,
the index starting at `i`. -/
def mapIdxFrom (f : Nat → α → β) : Nat → List α → List β
  | _, [] => []
  | i, a :: as => f i a :: mapIdxFrom f (i + 1) as

/-- Whether the second list starts with the first one. -/
def listStartsWith : List Char → List Char → Bool
  | [], _ => true
  | _ :: _, [] => false
  | d :: ds, c :: cs => d == c && listStartsWith ds cs

/-- Split a character list at the first occurrence of `delim`, returning the
part before it and the part after it. -/
def splitAtSub (delim : List Char) : List Char → Option (List Char × List Char)
  | [] => none
  | c :: cs =>
    if listStartsWith delim (c :: cs) then some ([], (c :: cs).drop delim.length)
    else
      match splitAtSub delim cs with
      | some (pre, post) => some (c :: pre, post)
      | none => none

/-- Split a character list into lines at newline characters; always returns at
least one line. -/
def splitLines : List Char → List (List Char)
  | [] => [[]]
  | c :: rest =>
    let ls := splitLines rest
    if c = '\n' then [] :: ls
    else
      match ls with
      | [] => [[c]]
      | l :: ls' => (c :: l) :: ls'

/-- The number of leading `#` characters of a character list. -/
def countHashes (l : List Char) : Nat :=
  (l.takeWhile fun c => c = '#').length

/-! ### Markdown to draft conversion

`Modelled from the spec:` the `markdown-draft-js` library function
`markdownToDraft` configured with the repository's `markdownToDraftOptions`
(underline parsed from the non-standard `++text++` delimiter into the
`UNDERLINE` style) is not part of the repository; it is modelled here on the
markdown fragment the spec names: bold, italic, underline via `++x++`,
headings, lists and links. -/

/-- Whether a character is a decimal digit. -/
def isDigitCh (c : Char) : Bool :=
  '0' ≤ c && c ≤ '9'

/-- Modelled from the spec: block-level markdown recognition of the
conversion library — heading markers `#`/`##`/`###`, unordered list `- ` and
ordered list `1. ` prefixes select the draft block type. Returns the block
type and the remaining inline text. -/
def parseBlockLine (line : List Char) : String × List Char :=
  match line with
  | '#' :: '#' :: '#' :: ' ' :: rest => ("header-three", rest)
  | '#' :: '#' :: ' ' :: rest => ("header-two", rest)
  | '#' :: ' ' :: rest => ("header-one", rest)
  | '-' :: ' ' :: rest => ("unordered-list-item", rest)
  | c :: '.' :: ' ' :: rest =>
    if isDigitCh c then ("ordered-list-item", rest) else ("unstyled", line)
  | _ => ("unstyled", line)

/-- Modelled from the spec: inline markdown recognition of the conversion
library with the repository's custom style table — `**` toggles BOLD, `_`
toggles ITALIC, the non-standard `++` toggles UNDERLINE, and `[text](url)`
produces characters carrying a LINK entity with that url.  The first argument
is recursion fuel (one unit per step suffices for the input length). -/
def parseInline : Nat → Styles → List Char → List CMeta
  | _, _, [] => []
  | 0, _, _ => []
  | fuel + 1, st, cs =>
    match cs with
    | [] => []
    | '*' :: '*' :: rest => parseInline fuel { st with bold := !st.bold } rest
    | '+' :: '+' :: rest => parseInline fuel { st with underline := !st.underline } rest
    | '_' :: rest => parseInline fuel { st with italic := !st.italic } rest
    | '[' :: rest =>
      match splitAtSub [']', '('] rest with
      | some (txt, rest2) =>
        match splitAtSub [')'] rest2 with
        | some (url, rest3) =>
          (txt.map fun c => { ch := c, styles := st, entity := some url }) ++
            parseInline fuel st rest3
        | none => { ch := '[', styles := st } :: parseInline fuel st rest
      | none => { ch := '[', styles := st } :: parseInline fuel st rest
    | c :: rest => { ch := c, styles := st } :: parseInline fuel st rest

/-- Maximal runs of one style among a character list, as raw style ranges.
The second argument is the index of the next character, the third the start
index of the currently open run. -/
def styleRunsAux (S : InlineStyle) : Nat → Option Nat → List CMeta → List RawStyleRange
  | i, some s, [] => [⟨s, i - s, S⟩]
  | _, none, [] => []
  | i, some s, c :: cs =>
    if c.styles.has S then styleRunsAux S (i + 1) (some s) cs
    else ⟨s, i - s, S⟩ :: styleRunsAux S (i + 1) none cs
  | i, none, c :: cs =>
    if c.styles.has S then styleRunsAux S (i + 1) (some i) cs
    else styleRunsAux S (i + 1) none cs

/-- The raw style ranges of one style over a character list. -/
def styleRunsOf (S : InlineStyle) (chars : List CMeta) : List RawStyleRange :=
  styleRunsAux S 0 none chars

/-- Maximal runs of equal link entities over a character list, as raw entity
ranges. -/
def entityRunsAux : Nat → Option (Nat × List Char) → List CMeta → List RawEntityRange
  | i, some (s, u), [] => [⟨s, i - s, u⟩]
  | _, none, [] => []
  | i, cur, c :: cs =>
    match cur, c.entity with
    | some (s, u), some u' =>
      if u = u' then entityRunsAux (i + 1) (some (s, u)) cs
      else ⟨s, i - s, u⟩ :: entityRunsAux (i + 1) (some (i, u')) cs
    | some (s, u), none => ⟨s, i - s, u⟩ :: entityRunsAux (i + 1) none cs
    | none, some u' => entityRunsAux (i + 1) (some (i, u')) cs
    | none, none => entityRunsAux (i + 1) none cs

/-- The raw entity ranges of a character list. -/
def entityRunsOf (chars : List CMeta) : List RawEntityRange :=
  entityRunsAux 0 none chars

/-- The fixed order in which styles are serialized (and their ranges listed). -/
def styleOrder : List InlineStyle := [.BOLD, .ITALIC, .UNDERLINE]

/-- Convert a content block to a raw block (draft-js `convertToRaw`, one
block). -/
def blockToRaw (b : ContentBlock) : RawBlock :=
  { btype := b.btype
    text := b.chars.map (·.ch)
    inlineStyleRanges :=
      styleRunsOf .BOLD b.chars ++ styleRunsOf .ITALIC b.chars ++
        styleRunsOf .UNDERLINE b.chars
    entityRanges := entityRunsOf b.chars
    depth := b.depth }

/-- Convert a content state to a raw content state (draft-js `convertToRaw`). -/
def convertToRaw (c : ContentState) : RawDraftContentState :=
  ⟨c.blocks.map blockToRaw⟩

/-- The style set of the character at index `j` of a raw block. -/
def stylesAtRaw (rb : RawBlock) (j : Nat) : Styles :=
  { bold := rb.inlineStyleRanges.any fun r =>
      r.style == .BOLD && r.offset ≤ j && j < r.offset + r.length
    italic := rb.inlineStyleRanges.any fun r =>
      r.style == .ITALIC && r.offset ≤ j && j < r.offset + r.length
    underline := rb.inlineStyleRanges.any fun r =>
      r.style == .UNDERLINE && r.offset ≤ j && j < r.offset + r.length }

/-- The link entity of the character at index `j` of a raw block. -/
def entityAtRaw (rb : RawBlock) (j : Nat) : Option (List Char) :=
  (rb.entityRanges.find? fun r => r.offset ≤ j && j < r.offset + r.length).map (·.url)

/-- Convert a raw block back to a content block (draft-js `convertFromRaw`,
one block). -/
def rawToBlock (rb : RawBlock) : ContentBlock :=
  { btype := rb.btype
    chars := mapIdxFrom (fun j ch => ⟨ch, stylesAtRaw rb j, entityAtRaw rb j⟩) 0 rb.text
    depth := rb.depth }

/-- The content state of an empty document: a single empty unstyled block,
as produced by `EditorState.createEmpty`. -/
def emptyContentState : ContentState :=
  ⟨[{}]⟩

/-- Modelled from the spec: draft-js `convertFromRaw`; per the spec the
conversion "fails silently into an empty document if parsing yields no
blocks". -/
def convertFromRaw (raw : RawDraftContentState) : ContentState :=
  if raw.blocks.isEmpty then emptyContentState
  else ⟨raw.blocks.map rawToBlock⟩

/-- Modelled from the spec: `markdownToDraft` of the markdown-draft-js
library with the repository's `markdownToDraftOptions` applied — each line
becomes one raw block. -/
def markdownToDraft (s : String) : RawDraftContentState :=
  ⟨(splitLines s.data).map fun line =>
    let (t, rest) := parseBlockLine line
    blockToRaw { btype := t, chars := parseInline rest.length {} rest, depth := 0 }⟩

/-- draft-js `EditorState.createWithContent`: selection collapsed at the
start of the first block, no style override. -/
def EditorState.createWithContent (c : ContentState) : EditorState :=
  { content := c, selection := ⟨0, 0, 0, 0⟩, styleOverride := none }

/-- `getEditorStateFromMarkdown` of `src/app/src/Parser.ts`: parse markdown to
a raw draft object, convert it to content, and create an editor state with it. -/
def getEditorStateFromMarkdown (markdownString : String) : EditorState :=
  let rawObject := markdownToDraft markdownString
  let contentState := convertFromRaw rawObject
  let editorState := EditorState.createWithContent contentState
  editorState

/-! ### Draft to markdown conversion -/

/-- The open/close delimiter of one inline style; UNDERLINE uses the custom
`++` delimiter installed by the repository's `draftToMarkdownOptions`. -/
def styleMark : InlineStyle → List Char
  | .BOLD => ['*', '*']
  | .ITALIC => ['_']
  | .UNDERLINE => ['+', '+']

/-- The opening delimiters emitted when moving from style set `prev` to
style set `cur`. -/
def openMarks (prev cur : Styles) : List Char :=
  styleOrder.foldr (fun S acc => if !prev.has S && cur.has S then styleMark S ++ acc else acc) []

/-- The closing delimiters emitted when moving from style set `prev` to
style set `cur` (closed in reverse of the opening order). -/
def closeMarks (prev cur : Styles) : List Char :=
  styleOrder.reverse.foldr
    (fun S acc => if prev.has S && !cur.has S then styleMark S ++ acc else acc) []

/-- The characters emitted when a link entity ends before the next
character: `](url)`. -/
def entityCloseBetween (prevE curE : Option (List Char)) : List Char :=
  match prevE with
  | some u => if curE ≠ prevE then [']', '('] ++ u ++ [')'] else []
  | none => []

/-- The characters emitted when a link entity starts at the next
character: `[`. -/
def entityOpenBetween (prevE curE : Option (List Char)) : List Char :=
  match curE with
  | some _ => if curE ≠ prevE then ['['] else []
  | none => []

/-- Modelled from the spec: inline serialization of the conversion library
with the repository's custom style table — emit delimiters at every style or
entity boundary. -/
def serializeInline : Styles → Option (List Char) → List CMeta → List Char
  | prev, prevE, [] => closeMarks prev {} ++ entityCloseBetween prevE none
  | prev, prevE, c :: cs =>
    closeMarks prev c.styles ++ entityCloseBetween prevE c.entity ++
      entityOpenBetween prevE c.entity ++ openMarks prev c.styles ++
      [c.ch] ++ serializeInline c.styles c.entity cs

/-- Modelled from the spec: the block-level markdown marker emitted for a
block type; `n` is the one-based position inside a run of consecutive ordered
list items. -/
def blockMark (n : Nat) (btype : String) : List Char :=
  if btype = "header-one" then "# ".data
  else if btype = "header-two" then "## ".data
  else if btype = "header-three" then "### ".data
  else if btype = "unordered-list-item" then "- ".data
  else if btype = "ordered-list-item" then (toString n).data ++ ". ".data
  else []

/-- The serialized markdown line of one content block. -/
def blockLine (n : Nat) (b : ContentBlock) : List Char :=
  blockMark n b.btype ++ serializeInline {} none b.chars

/-- Serialize a list of content blocks to markdown, numbering consecutive
ordered list items; `n` counts the ordered items seen in the current run. -/
def blocksToMarkdown : Nat → List ContentBlock → List Char
  | _, [] => []
  | n, b :: bs =>
    let n' := if b.btype = "ordered-list-item" then n + 1 else 0
    let line := blockLine n' b
    match bs with
    | [] => line
    | _ => line ++ '\n' :: blocksToMarkdown n' bs

/-- Modelled from the spec: `draftToMarkdown` of the markdown-draft-js
library with the repository's `draftToMarkdownOptions` applied (underline
serialized through the `++...++` marker). -/
def draftToMarkdown (raw : RawDraftContentState) : String :=
  String.mk (blocksToMarkdown 0 (raw.blocks.map rawToBlock))

/-- `exportEditorStateToMarkdownString` of `src/app/src/Parser.ts`: take the
current content, convert it to raw, and serialize the raw content to
markdown. -/
def exportEditorStateToMarkdownString (editorState : EditorState) : String :=
  let draftContent := editorState.content
  let rawDraftContent := convertToRaw draftContent
  let markdown := draftToMarkdown rawDraftContent
  markdown

/-! ### HTML conversion path -/

/-- Modelled from the spec: draft-js `convertFromHTML` together with
`ContentState.createFromBlockArray` — the HTML path applies no custom style
table; each line of input becomes one unstyled block. -/
def contentFromHtml (s : String) : ContentState :=
  ⟨(splitLines s.data).map fun line =>
    { btype := "unstyled", chars := line.map fun c => { ch := c }, depth := 0 }⟩

/-- `getEditorStateFromHtml` of `src/app/src/Parser.ts`. -/
def getEditorStateFromHtml (htmlString : String) : EditorState :=
  EditorState.createWithContent (contentFromHtml htmlString)

/-- Modelled from the spec: `stateToHTML` of the draft-js-export-html
library, with no custom style table on this path. -/
def stateToHTML (c : ContentState) : String :=
  String.mk (c.blocks.foldr
    (fun b acc => "<p>".data ++ b.chars.map (·.ch) ++ "</p>".data ++ acc) [])

/-- `exportEditorStateToHtmlString` of `src/app/src/Parser.ts`. -/
def exportEditorStateToHtmlString (editorState : EditorState) : String :=
  stateToHTML editorState.content

/-! ### Content and selection accessors (draft-js framework model)

`Modelled from the spec:` the draft-js framework's accessor API and the
`RichUtils` transformation operations the Editor View calls
("framework-provided toggling", the "framework's own list-indent mechanism")
are not part of the repository; they are modelled below following draft-js's
documented behaviour. -/

/-- The block of a content state at a block index (draft-js
`getBlockForKey`; a missing key yields the default empty unstyled block). -/
def blockAt (c : ContentState) (i : Nat) : ContentBlock :=
  c.blocks.getD i default

/-- The style set at a character index of a block (draft-js
`getInlineStyleAt`). -/
def styleAt (b : ContentBlock) (j : Nat) : Styles :=
  (b.chars.getD j default).styles

/-- Modelled from the spec: draft-js `lookUpwardForInlineStyle` — the style
of the last character of the closest preceding non-empty block, or the empty
style set. -/
def lookUpwardStyle (c : ContentState) (i : Nat) : Styles :=
  match (c.blocks.take i).reverse.find? fun b => 0 < b.chars.length with
  | some b => styleAt b (b.chars.length - 1)
  | none => {}

/-- Modelled from the spec: draft-js `EditorState.getCurrentInlineStyle` —
the style override when set; otherwise the style at the cursor for a
collapsed selection, or the style at the selection start for a non-collapsed
one. -/
def getCurrentInlineStyle (st : EditorState) : Styles :=
  match st.styleOverride with
  | some o => o
  | none =>
    let content := st.content
    let sel := st.selection
    let b := blockAt content sel.startBlockIdx
    if sel.isCollapsed then
      if 0 < sel.startOffsetIdx then styleAt b (sel.startOffsetIdx - 1)
      else if 0 < b.chars.length then styleAt b 0
      else lookUpwardStyle content sel.startBlockIdx
    else
      if sel.startOffsetIdx < b.chars.length then styleAt b sel.startOffsetIdx
      else if 0 < sel.startOffsetIdx then styleAt b (sel.startOffsetIdx - 1)
      else lookUpwardStyle content sel.startBlockIdx

/-- Whether character position `(i, j)` lies inside the selection (block
index `i`, character offset `j`), the selection taken half-open from its
start position to its end position. -/
def inSel (sel : SelectionState) (i j : Nat) : Bool :=
  (sel.startBlockIdx < i || (sel.startBlockIdx == i && sel.startOffsetIdx ≤ j)) &&
    (i < sel.endBlockIdx || (i == sel.endBlockIdx && j < sel.endOffsetIdx))

/-- Map a position-indexed function over every character of a content
state. -/
def mapContentChars (c : ContentState) (f : Nat → Nat → CMeta → CMeta) : ContentState :=
  ⟨mapIdxFrom (fun i b => { b with chars := mapIdxFrom (fun j ch => f i j ch) 0 b.chars }) 0 c.blocks⟩

/-- Modelled from the spec: draft-js `Modifier.applyInlineStyle` /
`Modifier.removeInlineStyle` — set one style to `v` on every character inside
the selection. -/
def applyStyleInSel (c : ContentState) (sel : SelectionState) (S : InlineStyle) (v : Bool) : ContentState :=
  mapContentChars c fun i j ch =>
    if inSel sel i j then { ch with styles := ch.styles.set S v } else ch

/-- Modelled from the spec: draft-js `Modifier.applyEntity` — set the link
entity of every character inside the selection (`none` clears it). -/
def applyEntityInSel (c : ContentState) (sel : SelectionState) (e : Option (List Char)) : ContentState :=
  mapContentChars c fun i j ch =>
    if inSel sel i j then { ch with entity := e } else ch

/-- Modelled from the spec: draft-js `EditorState.push` — install the new
content and clear the inline style override; the selection is unchanged
because the modifiers used here keep the applied selection as
`selectionAfter`. -/
def pushContent (st : EditorState) (c : ContentState) : EditorState :=
  { st with content := c, styleOverride := none }

/-- Modelled from the spec: draft-js `RichUtils.toggleInlineStyle` — a
collapsed selection toggles the style inside the override set; otherwise the
style is removed over the selection when the current style contains it and
applied over the selection when it does not. -/
def toggleInlineStyle (st : EditorState) (S : InlineStyle) : EditorState :=
  let sel := st.selection
  let currentStyle := getCurrentInlineStyle st
  if sel.isCollapsed then
    { st with styleOverride := some (currentStyle.set S (!currentStyle.has S)) }
  else
    if currentStyle.has S then
      pushContent st (applyStyleInSel st.content sel S false)
    else
      pushContent st (applyStyleInSel st.content sel S true)

/-- `applyInlineStyle` of the `TextEditor` component
(`src/app/src/MarkdownParser.ts`): toggle the style through the framework;
the collapsed branch guards on the (always-present) new state before
installing it. -/
def applyInlineStyle (st : EditorState) (inlineStyle : InlineStyle) : EditorState :=
  if !st.selection.isCollapsed then
    toggleInlineStyle st inlineStyle
  else
    toggleInlineStyle st inlineStyle

/-- Modelled from the spec: draft-js `RichUtils.toggleBlockType` — trim a
selection ending at offset 0 of a later block, leave atomic blocks alone, and
otherwise set every block in the selected range to the requested type, or to
`unstyled` when the block at the selection start already has that type. -/
def toggleBlockType (st : EditorState) (blockType : String) : EditorState :=
  let sel := st.selection
  let sB := sel.startBlockIdx
  let eB := if sB ≠ sel.endBlockIdx ∧ sel.endOffsetIdx = 0
    then sel.endBlockIdx - 1 else sel.endBlockIdx
  let content := st.content
  let hasAtomicBlock := (List.range content.blocks.length).any fun i =>
    decide (sB ≤ i) && decide (i ≤ eB) && ((blockAt content i).btype == "atomic")
  if hasAtomicBlock then st
  else
    let typeToSet := if (blockAt content sB).btype = blockType then "unstyled" else blockType
    pushContent st
      ⟨mapIdxFrom (fun i b => if sB ≤ i ∧ i ≤ eB then { b with btype := typeToSet } else b)
        0 content.blocks⟩

/-- `applyBlockStyle` of the `TextEditor` component: toggle the block style
through the framework. -/
def applyBlockStyle (st : EditorState) (blockStyle : String) : EditorState :=
  toggleBlockType st blockStyle

/-- `onHeadingChange` of the `TextEditor` component: dispatch on the selected
dropdown option key, apply the matching block style for the four known keys,
and report the `selectedHeading` value that is set (`none` when no option was
given). -/
def onHeadingChange (st : EditorState) (option : Option String) : EditorState × Option String :=
  match option with
  | none => (st, none)
  | some key =>
    if key = "paragraph" then (applyBlockStyle st "paragraph", some key)
    else if key = "header-one" then (applyBlockStyle st "header-one", some key)
    else if key = "header-two" then (applyBlockStyle st "header-two", some key)
    else if key = "header-three" then (applyBlockStyle st "header-three", some key)
    else (st, some "paragraph")

/-- `maxIntend` of the `TextEditor` component: the maximum allowed indent
level for lists. -/
def maxIntend : Nat := 4

/-- Modelled from the spec: the depth adjustment of draft-js
`adjustBlockDepthForContentState` — the new depth is clamped between 0 and
`maxDepth`. -/
def adjustDepthClamp (d : Nat) (adj : Int) (maxDepth : Nat) : Nat :=
  (max 0 (min ((d : Int) + adj) (maxDepth : Int))).toNat

/-- Modelled from the spec: draft-js `adjustBlockDepthForContentState` —
adjust the depth of every block in the selected block range, clamped to
`[0, maxDepth]`. -/
def adjustBlockDepthInSel (c : ContentState) (sel : SelectionState) (adj : Int) (maxDepth : Nat) : ContentState :=
  ⟨mapIdxFrom
    (fun i b =>
      if sel.startBlockIdx ≤ i ∧ i ≤ sel.endBlockIdx then
        { b with depth := adjustDepthClamp b.depth adj maxDepth }
      else b)
    0 c.blocks⟩

/-- Modelled from the spec: draft-js `RichUtils.onTab` — the framework's own
list-indent mechanism: only single-block selections on list items are
adjusted, an un-shifted tab at `maxDepth` is ignored, and otherwise the depth
of the selected blocks is adjusted by ±1 clamped to `maxDepth`. -/
def RichUtilsOnTab (event : TabEvent) (st : EditorState) (maxDepth : Nat) : EditorState :=
  let sel := st.selection
  if sel.anchorBlock ≠ sel.focusBlock then st
  else
    let block := blockAt st.content sel.anchorBlock
    if block.btype ≠ "unordered-list-item" ∧ block.btype ≠ "ordered-list-item" then st
    else if !event.shiftKey ∧ block.depth = maxDepth then st
    else pushContent st
      (adjustBlockDepthInSel st.content sel (if event.shiftKey then -1 else 1) maxDepth)

/-- `onTab` of the `TextEditor` component: delegate to the framework's
list-indent mechanism with the fixed maximum depth. -/
def onTab (event : TabEvent) (st : EditorState) : EditorState :=
  RichUtilsOnTab event st maxIntend

/-- The decrease-indent toolbar button of the `TextEditor` component: a
synthetic shift-tab through the framework's list-indent mechanism with the
fixed maximum depth. -/
def onDecreaseIndentMouseDown (st : EditorState) : EditorState :=
  RichUtilsOnTab { shiftKey := true } st maxIntend

/-- The increase-indent toolbar button of the `TextEditor` component: a
synthetic tab through the framework's list-indent mechanism with the fixed
maximum depth. -/
def onIncreaseIndentMouseDown (st : EditorState) : EditorState :=
  RichUtilsOnTab { shiftKey := false } st maxIntend

/-- Modelled from the spec: draft-js `RichUtils.toggleLink` — apply the given
link entity (or `none`) over the target selection and push the result. -/
def toggleLink (st : EditorState) (targetSelection : SelectionState) (entityUrl : Option (List Char)) : EditorState :=
  pushContent st (applyEntityInSel st.content targetSelection entityUrl)

/-- `removeLink` of the `TextEditor` component: clear the link entity over
the current selection, but only when the selection is not collapsed. -/
def removeLink (st : EditorState) : EditorState :=
  let selection := st.selection
  if !selection.isCollapsed then
    toggleLink st selection none
  else st

/-- `handleKeyCommand` of the `TextEditor` component: `backspace` is reported
unhandled before the framework is consulted; any other command is handled
exactly when the framework handler (passed here as `richHandle`, draft-js
`RichUtils.handleKeyCommand`) produces a new state, and the second component
records the state installed by `setEditorState` (`none` when none is). -/
def handleKeyCommand (richHandle : String → EditorState → Option EditorState)
    (command : String) (st : EditorState) : DraftHandleValue × Option EditorState :=
  if command = "backspace" then
    (.notHandled, none)
  else
    match richHandle command st with
    | some newState => (.handled, some newState)
    | none => (.notHandled, none)

/-- The content-update `useEffect` of the `TextEditor` component: derive the
new content text by the conversion function matching the content type and
invoke the host callback with it; the returned list is the sequence of
`handleContentUpdate` invocations of one effect run. -/
def contentUpdateEffect (contentType : EditorContentType) (st : EditorState) : List String :=
  let newContent :=
    if contentType = .markdown then exportEditorStateToMarkdownString st
    else if contentType = .html then exportEditorStateToHtmlString st
    else ""
  [newContent]

/-- The toolbar indicator values computed by the indicator-sync `useEffect`
of the `TextEditor` component. -/
structure ToolbarIndicators where
  isBoldActive : Bool
  isItalicActive : Bool
  isUnderlineActive : Bool
  isOrderedListActive : Bool
  isUnorderedListActive : Bool
  selectedHeading : String
deriving DecidableEq, Repr

/-- The indicator-sync `useEffect` of the `TextEditor` component: read the
current inline style and the block type at the selection anchor and derive
every toolbar indicator from them. -/
def indicatorSync (st : EditorState) : ToolbarIndicators :=
  let currentInlineStyle := getCurrentInlineStyle st
  let anchorKey := st.selection.anchorBlock
  let currentContentBlock := blockAt st.content anchorKey
  let currentBlockType := currentContentBlock.btype
  { isBoldActive := currentInlineStyle.has .BOLD
    isItalicActive := currentInlineStyle.has .ITALIC
    isUnderlineActive := currentInlineStyle.has .UNDERLINE
    isUnorderedListActive := currentBlockType == "unordered-list-item"
    isOrderedListActive := currentBlockType == "ordered-list-item"
    selectedHeading := if currentBlockType == "unstyled" then "paragraph" else currentBlockType }

/-- The representative set of simple markdown inputs named by the spec:
bold, italic, underline via `++x++`, headings, lists and links. -/
def representativeMarkdownInputs : List String :=
  ["**bold**", "_italic_", "++underline++",
   "# Heading", "## Heading", "### Heading",
   "- item", "1. item",
   "[text](https://example.com)",
   "**bold** and ++underlined++",
   "# Title\nplain text"]

/-- The number of leading `#` characters the spec assigns to each heading
dropdown key (0, 1, 2, 3). -/
def headingHashCount (key : String) : Nat :=
  if key = "header-one" then 1
  else if key = "header-two" then 2
  else if key = "header-three" then 3
  else 0

/-! ### Helper lemmas -/

theorem mapIdxFrom_length (f : Nat → α → β) (i : Nat) (l : List α) :
    (mapIdxFrom f i l).length = l.length := by
  induction l generalizing i with
  | nil => rfl
  | cons a as ih => simp [mapIdxFrom, ih]

theorem mapIdxFrom_getD (f : Nat → α → α) (i n : Nat) (l : List α) (d : α)
    (hn : n < l.length) :
    (mapIdxFrom f i l).getD n d = f (i + n) (l.getD n d) := by
  induction l generalizing i n with
  | nil => exact absurd hn (by simp)
  | cons a as ih =>
    cases n with
    | zero => simp [mapIdxFrom]
    | succ m =>
      have hm : m < as.length := by simpa using hn
      simp only [mapIdxFrom, List.getD_cons_succ]
      rw [ih (i + 1) m hm]
      ring_nf

theorem mapIdxFrom_comp (f g : Nat → α → α) (i : Nat) (l : List α) :
    mapIdxFrom f i (mapIdxFrom g i l) = mapIdxFrom (fun n a => f n (g n a)) i l := by
  induction l generalizing i with
  | nil => rfl
  | cons a as ih => simp [mapIdxFrom, ih]

theorem mapIdxFrom_congr (f g : Nat → α → β) (i : Nat) (l : List α)
    (h : ∀ n a, f n a = g n a) :
    mapIdxFrom f i l = mapIdxFrom g i l := by
  induction l generalizing i with
  | nil => rfl
  | cons a as ih => simp [mapIdxFrom, h, ih]

theorem mapIdxFrom_eq_self (f : Nat → α → α) (i : Nat) (l : List α)
    (h : ∀ n (hn : n < l.length), f (i + n) (l.get ⟨n, hn⟩) = l.get ⟨n, hn⟩) :
    mapIdxFrom f i l = l := by
  induction l generalizing i with
  | nil => rfl
  | cons a as ih =>
    have h0 := h 0 (by simp)
    simp only [List.get] at h0
    simp only [mapIdxFrom]
    rw [show i + 0 = i by ring] at h0
    rw [h0, ih (i + 1)]
    intro n hn
    have := h (n + 1) (by simpa using Nat.succ_lt_succ hn)
    simpa [show i + (n + 1) = i + 1 + n by ring] using this

theorem mem_mapIdxFrom {f : Nat → α → β} {i : Nat} {l : List α} {b : β}
    (hb : b ∈ mapIdxFrom f i l) : ∃ n, ∃ hn : n < l.length, b = f (i + n) (l.get ⟨n, hn⟩) := by
  induction l generalizing i with
  | nil => simp [mapIdxFrom] at hb
  | cons a as ih =>
    simp only [mapIdxFrom, List.mem_cons] at hb
    rcases hb with hb | hb
    · exact ⟨0, by simp, by simpa using hb⟩
    · obtain ⟨n, hn, hval⟩ := ih hb
      exact ⟨n + 1, by simpa using Nat.succ_lt_succ hn,
        by simpa [show i + (n + 1) = i + 1 + n by ring] using hval⟩

theorem splitLines_ne_nil (cs : List Char) : splitLines cs ≠ [] := by
  induction cs with
  | nil => simp [splitLines]
  | cons c rest ih =>
    simp only [splitLines]
    split
    · simp
    · split <;> simp

theorem Styles.has_set_self (s : Styles) (S : InlineStyle) (v : Bool) :
    (s.set S v).has S = v := by
  cases S <;> rfl

theorem Styles.set_set (s : Styles) (S : InlineStyle) (v1 v2 : Bool) :
    (s.set S v1).set S v2 = s.set S v2 := by
  cases S <;> rfl

theorem Styles.set_self_of_has (s : Styles) (S : InlineStyle) (v : Bool)
    (h : s.has S = v) : s.set S v = s := by
  cases s; cases S <;> simp_all [Styles.has, Styles.set]

/-! ### Concrete example states -/

/-- The markdown input of the spec's worked example. -/
def boldUnderlineInput : String := "**bold** and ++underlined++"

/-- A document whose single block reads `ab` with only the `a` bold, with the
whole text selected: the bold coverage of the selection is mixed. -/
def mixedCoverageState : EditorState :=
  ⟨⟨[⟨"unstyled", [⟨'a', ⟨true, false, false⟩, none⟩, ⟨'b', ⟨false, false, false⟩, none⟩], 0⟩]⟩,
   ⟨0, 0, 0, 2⟩, none⟩

/-- A document whose single block reads `ab` with both characters bold, with
the whole text selected: the bold coverage of the selection is uniform. -/
def uniformCoverageState : EditorState :=
  ⟨⟨[⟨"unstyled", [⟨'a', ⟨true, false, false⟩, none⟩, ⟨'b', ⟨true, false, false⟩, none⟩], 0⟩]⟩,
   ⟨0, 0, 0, 2⟩, none⟩

/-- A document whose single block is a `header-one` reading `x`, with the
cursor collapsed at its start. -/
def headerOneState : EditorState :=
  ⟨⟨[⟨"header-one", [⟨'x', ⟨false, false, false⟩, none⟩], 0⟩]⟩, ⟨0, 0, 0, 0⟩, none⟩

/-- A document whose single block is an ordered list item of depth 3 with
the cursor collapsed inside it. -/
def orderedListState : EditorState :=
  ⟨⟨[⟨"ordered-list-item", [⟨'x', ⟨false, false, false⟩, none⟩], 3⟩]⟩, ⟨0, 0, 0, 0⟩, none⟩

/-- A document whose single block reads `ab` with a link on both characters,
with the whole text selected. -/
def linkedState : EditorState :=
  ⟨⟨[⟨"unstyled",
      [⟨'a', ⟨false, false, false⟩, some "u".data⟩, ⟨'b', ⟨false, false, false⟩, some "u".data⟩],
      0⟩]⟩,
   ⟨0, 0, 0, 2⟩, none⟩

/-! ### Claim theorems -/

/-- Claim C1: for every string in the representative set of simple markdown
inputs (bold, italic, underline via `++x++`, headings, lists, links),
exporting the editor state produced by parsing the string yields the string
again: `exportEditorStateToMarkdownString (getEditorStateFromMarkdown s) = s`. -/
theorem markdownRoundTripOnRepresentativeInputs :
    (representativeMarkdownInputs.all fun s =>
      exportEditorStateToMarkdownString (getEditorStateFromMarkdown s) == s) = true := by
  decide

/-- Claim C2: one run of the content-update effect invokes the host callback
`handleContentUpdate` exactly once, with the markdown serialization of the
current state when the content type is `markdown` and with the HTML
serialization when it is `html`. -/
theorem contentUpdateUsesMatchingConversion :
    (∀ st, contentUpdateEffect .markdown st = [exportEditorStateToMarkdownString st]) ∧
    (∀ st, contentUpdateEffect .html st = [exportEditorStateToHtmlString st]) ∧
    (∀ ct st, (contentUpdateEffect ct st).length = 1) := by
  refine ⟨fun st => rfl, fun st => rfl, fun ct st => rfl⟩

/-- Claim C5: parsing `"**bold** and ++underlined++"` produces a document
state whose raw form has exactly one BOLD inline style range and exactly one
UNDERLINE inline style range, and re-serializing that state to markdown
returns exactly the input string. -/
theorem boldUnderlineExample :
    ((convertToRaw (getEditorStateFromMarkdown boldUnderlineInput).content).blocks.map
        fun b => (b.inlineStyleRanges.filter fun r => r.style == InlineStyle.BOLD).length).sum = 1 ∧
    ((convertToRaw (getEditorStateFromMarkdown boldUnderlineInput).content).blocks.map
        fun b => (b.inlineStyleRanges.filter fun r => r.style == InlineStyle.UNDERLINE).length).sum = 1 ∧
    exportEditorStateToMarkdownString (getEditorStateFromMarkdown boldUnderlineInput) =
      boldUnderlineInput := by
  refine ⟨by decide, by decide, by decide⟩

/-- Claim C6: `removeLink` clears the link annotation only when the current
selection is not collapsed; on a collapsed selection it leaves the editor
state unchanged, and on a non-collapsed one it toggles the link entity to
`none` over the selection. -/
theorem removeLinkOnlyWhenNotCollapsed :
    (∀ st, st.selection.isCollapsed = true → removeLink st = st) ∧
    (∀ st, st.selection.isCollapsed = false →
      removeLink st = toggleLink st st.selection none) := by
  constructor <;> intro st h <;> simp [removeLink, h]

/-- Witness for C6 at concrete inputs: the collapsed `headerOneState` is left
unchanged, the non-collapsed `linkedState` has its link toggled off. -/
theorem removeLinkOnlyWhenNotCollapsedWitness :
    removeLink headerOneState = headerOneState ∧
    removeLink linkedState = toggleLink linkedState linkedState.selection none :=
  ⟨removeLinkOnlyWhenNotCollapsed.1 headerOneState (by decide),
   removeLinkOnlyWhenNotCollapsed.2 linkedState (by decide)⟩

/-- Claim C9: the ordered-list and unordered-list toolbar indicators computed
by the indicator synchronization are never both active, because each is the
equality of the single current block type with a different type string. -/
theorem listIndicatorsMutuallyExclusive (st : EditorState) :
    ((indicatorSync st).isOrderedListActive && (indicatorSync st).isUnorderedListActive) = false := by
  simp only [indicatorSync]
  cases hb : ((blockAt st.content st.selection.anchorBlock).btype == "ordered-list-item") with
  | false => simp [hb]
  | true =>
    have : (blockAt st.content st.selection.anchorBlock).btype = "ordered-list-item" :=
      eq_of_beq hb
    simp [this]

/-- Claim C10: the key-command handler returns `not-handled` for the
`backspace` command without consulting the framework handler, installing no
state; every other command installs exactly the state the framework handler
produces, and is reported handled exactly when one is produced. -/
theorem handleKeyCommandBackspaceUnhandled :
    (∀ richHandle st, handleKeyCommand richHandle "backspace" st = (.notHandled, none)) ∧
    (∀ richHandle c st, c ≠ "backspace" →
      (handleKeyCommand richHandle c st).2 = richHandle c st ∧
      ((handleKeyCommand richHandle c st).1 = .handled ↔ (richHandle c st).isSome = true)) := by
  constructor
  · intro richHandle st
    simp [handleKeyCommand]
  · intro richHandle c st h
    simp only [handleKeyCommand, if_neg h]
    cases hr : richHandle c st <;> simp

/-- Witness for C10 at a concrete input: the command `bold` with a framework
handler returning no state is reported unhandled and installs nothing. -/
theorem handleKeyCommandBackspaceUnhandledWitness :
    (handleKeyCommand (fun _ _ => none) "bold" headerOneState).2 = none ∧
    ¬((handleKeyCommand (fun _ _ => none) "bold" headerOneState).1 = .handled) := by
  have h := handleKeyCommandBackspaceUnhandled.2 (fun _ _ => none) "bold" headerOneState
    (by decide)
  exact ⟨h.1, fun hc => by simpa using h.2.mp hc⟩

theorem adjustDepthClamp_le (d : Nat) (adj : Int) (m : Nat) :
    adjustDepthClamp d adj m ≤ m := by
  unfold adjustDepthClamp
  rw [Int.toNat_le]
  exact max_le (Int.natCast_nonneg m) (min_le_right _ _)

theorem RichUtilsOnTab_depth_le (ev : TabEvent) (st : EditorState) (maxDepth : Nat)
    (h : ∀ b ∈ st.content.blocks, b.depth ≤ maxDepth) :
    ∀ b ∈ (RichUtilsOnTab ev st maxDepth).content.blocks, b.depth ≤ maxDepth := by
  intro b hb
  simp only [RichUtilsOnTab] at hb
  split at hb
  · exact h b hb
  split at hb
  · exact h b hb
  split at hb
  · exact h b hb
  simp only [pushContent, adjustBlockDepthInSel] at hb
  obtain ⟨n, hn, rfl⟩ := mem_mapIdxFrom hb
  split
  · exact adjustDepthClamp_le _ _ _
  · exact h _ (List.get_mem _ _ _)

/-- Claim C7: every indentation operation (Tab key, increase-indent button,
decrease-indent button) goes through the framework list-indent mechanism with
the fixed maximum depth `maxIntend = 4`, so a state whose list depths are all
within the bound keeps them within the bound under each operation. -/
theorem indentOperationsRespectMaxDepth (st : EditorState) (ev : TabEvent)
    (h : ∀ b ∈ st.content.blocks, b.depth ≤ maxIntend) :
    maxIntend = 4 ∧
    (∀ b ∈ (onTab ev st).content.blocks, b.depth ≤ maxIntend) ∧
    (∀ b ∈ (onIncreaseIndentMouseDown st).content.blocks, b.depth ≤ maxIntend) ∧
    (∀ b ∈ (onDecreaseIndentMouseDown st).content.blocks, b.depth ≤ maxIntend) :=
  ⟨rfl, RichUtilsOnTab_depth_le ev st maxIntend h,
    RichUtilsOnTab_depth_le _ st maxIntend h, RichUtilsOnTab_depth_le _ st maxIntend h⟩

/-- Witness for C7 at a concrete input: indenting a depth-3 ordered list item
keeps its depth within the bound. -/
theorem indentOperationsRespectMaxDepthWitness :
    (blockAt (onIncreaseIndentMouseDown orderedListState).content 0).depth ≤ maxIntend := by
  have h := (indentOperationsRespectMaxDepth orderedListState ⟨false⟩ (by decide)).2.2.1
  exact h _ (by decide)

/-- Claim C8: the conversion functions return a result for every input
string — the parsed documents always contain at least one block — and a raw
object whose parse yielded no blocks converts to the empty document state
rather than failing. -/
theorem conversionsTotalWithEmptyFallback :
    (∀ s, 0 < (getEditorStateFromMarkdown s).content.blocks.length) ∧
    (∀ s, 0 < (getEditorStateFromHtml s).content.blocks.length) ∧
    (∀ raw, raw.blocks = [] → convertFromRaw raw = emptyContentState) := by
  refine ⟨fun s => ?_, fun s => ?_, fun raw h => ?_⟩
  · simp only [getEditorStateFromMarkdown, EditorState.createWithContent, convertFromRaw]
    split
    · simp [emptyContentState]
    · simp only [markdownToDraft, List.map_map, List.length_map]
      exact List.length_pos.mpr (splitLines_ne_nil _)
  · simp only [getEditorStateFromHtml, EditorState.createWithContent, contentFromHtml,
      List.length_map]
    exact List.length_pos.mpr (splitLines_ne_nil _)
  · simp [convertFromRaw, h]

/-- Witness for C8 at a concrete input: a raw object with no blocks converts
to the empty document state. -/
theorem conversionsTotalWithEmptyFallbackWitness :
    convertFromRaw ⟨[]⟩ = emptyContentState :=
  conversionsTotalWithEmptyFallback.2.2 ⟨[]⟩ rfl

theorem toggleBlockType_collapsed_btype (st : EditorState) (key : String)
    (hcol : st.selection.isCollapsed = true)
    (hlt : st.selection.anchorBlock < st.content.blocks.length)
    (hatomic : (blockAt st.content st.selection.anchorBlock).btype ≠ "atomic") :
    (blockAt (toggleBlockType st key).content st.selection.anchorBlock).btype =
      if (blockAt st.content st.selection.anchorBlock).btype = key then "unstyled" else key := by
  have hcol' := hcol
  unfold SelectionState.isCollapsed at hcol'
  rw [Bool.and_eq_true, beq_iff_eq, beq_iff_eq] at hcol'
  obtain ⟨hb, ho⟩ := hcol'
  have hback : st.selection.isBackward = false := by
    simp [SelectionState.isBackward, hb, ho]
  have hsB : st.selection.startBlockIdx = st.selection.anchorBlock := by
    simp [SelectionState.startBlockIdx, hback]
  have heB : st.selection.endBlockIdx = st.selection.anchorBlock := by
    simp [SelectionState.endBlockIdx, hback, hb]
  have hif : (if st.selection.anchorBlock ≠ st.selection.anchorBlock ∧
      st.selection.endOffsetIdx = 0
      then st.selection.anchorBlock - 1 else st.selection.anchorBlock) =
        st.selection.anchorBlock := by
    simp
  simp only [toggleBlockType, hsB, heB, hif]
  have hall : ((List.range st.content.blocks.length).any fun i =>
      decide (st.selection.anchorBlock ≤ i) && decide (i ≤ st.selection.anchorBlock) &&
        ((blockAt st.content i).btype == "atomic")) = false := by
    rw [List.any_eq_false]
    intro i _
    by_cases hik : i = st.selection.anchorBlock
    · subst hik
      simp [hatomic]
    · have h1 : ¬(st.selection.anchorBlock ≤ i) ∨ ¬(i ≤ st.selection.anchorBlock) := by
        rcases Nat.lt_or_ge i st.selection.anchorBlock with h | h
        · exact Or.inl (Nat.not_le.mpr h)
        · exact Or.inr fun h2 => hik (Nat.le_antisymm h2 h)
      rcases h1 with h1 | h1 <;> simp [h1]
  rw [hall, if_neg Bool.false_ne_true]
  simp only [pushContent, blockAt]
  rw [mapIdxFrom_getD _ _ _ _ _ hlt]
  simp [blockAt]

/-- Claim C3 (amended): with the cursor collapsed in an existing non-atomic
block, selecting one of `paragraph`, `header-one`, `header-two`,
`header-three` in the heading dropdown sets the current block to that type —
with a heading marker of 0, 1, 2, 3 leading `#` respectively — provided the
block does not already have that type; when it already has it, the framework
toggle sets the block back to `unstyled`, whose marker has 0 leading `#`. -/
theorem headingDropdownSetsBlockType (st : EditorState) (key : String)
    (hkey : key = "paragraph" ∨ key = "header-one" ∨ key = "header-two" ∨ key = "header-three")
    (hcol : st.selection.isCollapsed = true)
    (hlt : st.selection.anchorBlock < st.content.blocks.length)
    (hatomic : (blockAt st.content st.selection.anchorBlock).btype ≠ "atomic") :
    ((blockAt st.content st.selection.anchorBlock).btype ≠ key →
      (blockAt (onHeadingChange st (some key)).1.content st.selection.anchorBlock).btype = key ∧
      ∀ n, countHashes (blockMark n
        (blockAt (onHeadingChange st (some key)).1.content st.selection.anchorBlock).btype) =
          headingHashCount key) ∧
    ((blockAt st.content st.selection.anchorBlock).btype = key →
      (blockAt (onHeadingChange st (some key)).1.content st.selection.anchorBlock).btype =
        "unstyled" ∧
      ∀ n, countHashes (blockMark n
        (blockAt (onHeadingChange st (some key)).1.content st.selection.anchorBlock).btype) = 0) := by
  have htoggle := toggleBlockType_collapsed_btype st key hcol hlt hatomic
  have hfirst : (onHeadingChange st (some key)).1 = toggleBlockType st key := by
    rcases hkey with rfl | rfl | rfl | rfl <;> rfl
  rw [hfirst]
  constructor
  · intro hne
    rw [htoggle, if_neg hne]
    refine ⟨rfl, fun n => ?_⟩
    rcases hkey with rfl | rfl | rfl | rfl <;> rfl
  · intro he
    rw [htoggle, if_pos he]
    exact ⟨rfl, fun n => rfl⟩

/-- Counterexample for C3 as stated: with the cursor in a block that is
already `header-one`, selecting `header-one` in the dropdown does not set the
block to `header-one`; the framework toggle turns it into `unstyled` and the
serialized markdown carries 0 leading `#` instead of 1. -/
theorem headingDropdownToggleOffCounterexample :
    (blockAt (onHeadingChange headerOneState (some "header-one")).1.content 0).btype =
      "unstyled" ∧
    (blockAt (onHeadingChange headerOneState (some "header-one")).1.content 0).btype ≠
      "header-one" ∧
    countHashes (exportEditorStateToMarkdownString
      (onHeadingChange headerOneState (some "header-one")).1).data = 0 := by
  refine ⟨by decide, by decide, by decide⟩

/-- Witness for C3 (amended) at a concrete input: selecting `header-two` with
the cursor in a `header-one` block sets the block to `header-two` with a
2-`#` marker. -/
theorem headingDropdownSetsBlockTypeWitness :
    (blockAt (onHeadingChange headerOneState (some "header-two")).1.content 0).btype =
      "header-two" ∧
    countHashes (blockMark 0
      (blockAt (onHeadingChange headerOneState (some "header-two")).1.content 0).btype) = 2 := by
  have h := (headingDropdownSetsBlockType headerOneState "header-two"
    (Or.inr (Or.inr (Or.inl rfl))) (by decide) (by decide) (by decide)).1 (by decide)
  exact ⟨h.1, h.2 0⟩

theorem blockAt_mapContentChars (c : ContentState) (f : Nat → Nat → CMeta → CMeta) (i : Nat)
    (hi : i < c.blocks.length) :
    blockAt (mapContentChars c f) i =
      { blockAt c i with chars := mapIdxFrom (fun j ch => f i j ch) 0 (blockAt c i).chars } := by
  simp only [mapContentChars, blockAt]
  rw [mapIdxFrom_getD _ _ _ _ _ hi]
  simp

theorem mapContentChars_congr (c : ContentState) (f g : Nat → Nat → CMeta → CMeta)
    (h : ∀ i j m, f i j m = g i j m) :
    mapContentChars c f = mapContentChars c g := by
  simp only [mapContentChars]
  refine congrArg _ (mapIdxFrom_congr _ _ _ _ fun n b => ?_)
  have hc : mapIdxFrom (fun j ch => f n j ch) 0 b.chars =
      mapIdxFrom (fun j ch => g n j ch) 0 b.chars :=
    mapIdxFrom_congr _ _ _ _ fun j m => h n j m
  rw [hc]

theorem mapContentChars_comp (c : ContentState) (f g : Nat → Nat → CMeta → CMeta) :
    mapContentChars (mapContentChars c g) f =
      mapContentChars c fun i j m => f i j (g i j m) := by
  simp only [mapContentChars]
  rw [mapIdxFrom_comp]
  refine congrArg _ (mapIdxFrom_congr _ _ _ _ fun n b => ?_)
  simp only []
  rw [mapIdxFrom_comp]

theorem mapContentChars_eq_self (c : ContentState) (f : Nat → Nat → CMeta → CMeta)
    (h : ∀ i j, i < c.blocks.length → j < (c.blocks.getD i default).chars.length →
      f i j ((c.blocks.getD i default).chars.getD j default) =
        (c.blocks.getD i default).chars.getD j default) :
    mapContentChars c f = c := by
  cases c with
  | mk blocks =>
    simp only [mapContentChars]
    refine congrArg _ (mapIdxFrom_eq_self _ _ _ fun n hn => ?_)
    simp only [Nat.zero_add]
    have hchars : mapIdxFrom (fun j ch => f n j ch) 0 (blocks.get ⟨n, hn⟩).chars =
        (blocks.get ⟨n, hn⟩).chars := by
      refine mapIdxFrom_eq_self _ _ _ fun j hj => ?_
      simp only [Nat.zero_add]
      have hg : blocks.getD n default = blocks.get ⟨n, hn⟩ := List.getD_eq_get _ _ hn
      have hj' : j < (blocks.getD n default).chars.length := by rw [hg]; exact hj
      have := h n j hn hj'
      rw [hg] at this
      rwa [List.getD_eq_get _ _ hj] at this
    rw [hchars]

theorem pushContent_selection (st : EditorState) (c : ContentState) :
    (pushContent st c).selection = st.selection := rfl

theorem pushContent_content (st : EditorState) (c : ContentState) :
    (pushContent st c).content = c := rfl

theorem pushContent_styleOverride (st : EditorState) (c : ContentState) :
    (pushContent st c).styleOverride = none := rfl

theorem inSel_single_iff (sel : SelectionState) (k i j : Nat)
    (hsB : sel.startBlockIdx = k) (heB : sel.endBlockIdx = k) :
    inSel sel i j = true ↔
      i = k ∧ sel.startOffsetIdx ≤ j ∧ j < sel.endOffsetIdx := by
  simp only [inSel, hsB, heB, Bool.and_eq_true, Bool.or_eq_true, beq_iff_eq,
    decide_eq_true_eq]
  omega

/-- Claim C4 (amended): toggling an inline style twice on the same unchanged
selection restores the serialized text when the selection is collapsed, or
when the selection lies in a single block, no inline style override is
active, and the style is uniformly present or uniformly absent (`u`) across
the selected characters.  (With mixed coverage the second toggle strips or
applies the style across the whole selection, changing the text.) -/
theorem toggleStyleTwicePreservesText (st : EditorState) (S : InlineStyle) :
    (st.selection.isCollapsed = true →
      exportEditorStateToMarkdownString (applyInlineStyle (applyInlineStyle st S) S) =
        exportEditorStateToMarkdownString st) ∧
    (∀ u : Bool,
      st.selection.isCollapsed = false →
      st.selection.anchorBlock = st.selection.focusBlock →
      st.styleOverride = none →
      st.selection.endOffsetIdx ≤
        (blockAt st.content st.selection.startBlockIdx).chars.length →
      (∀ j, j < st.selection.endOffsetIdx → st.selection.startOffsetIdx ≤ j →
        (styleAt (blockAt st.content st.selection.startBlockIdx) j).has S = u) →
      exportEditorStateToMarkdownString (applyInlineStyle (applyInlineStyle st S) S) =
        exportEditorStateToMarkdownString st) := by
  have happ : ∀ (s' : EditorState) (S' : InlineStyle),
      applyInlineStyle s' S' = toggleInlineStyle s' S' := by
    intro s' S'
    simp [applyInlineStyle]
  constructor
  · intro hcol
    rw [happ, happ]
    have hcontent : (toggleInlineStyle (toggleInlineStyle st S) S).content = st.content := by
      simp [toggleInlineStyle, hcol]
    simp only [exportEditorStateToMarkdownString, hcontent]
  · intro u hcol hsame hover hwf huni
    rw [happ, happ]
    have hsBk : st.selection.startBlockIdx = st.selection.anchorBlock := by
      unfold SelectionState.startBlockIdx
      split
      · exact hsame.symm
      · rfl
    have heBk : st.selection.endBlockIdx = st.selection.anchorBlock := by
      unfold SelectionState.endBlockIdx
      split
      · rfl
      · exact hsame.symm
    have hoffne : st.selection.anchorOffset ≠ st.selection.focusOffset := by
      intro he
      have hc : st.selection.isCollapsed = true := by
        simp [SelectionState.isCollapsed, hsame, he]
      rw [hc] at hcol
      exact absurd hcol (by simp)
    have hback : st.selection.isBackward =
        decide (st.selection.focusOffset < st.selection.anchorOffset) := by
      simp [SelectionState.isBackward, hsame]
    have hso : st.selection.startOffsetIdx < st.selection.endOffsetIdx := by
      unfold SelectionState.startOffsetIdx SelectionState.endOffsetIdx
      rw [hback]
      split
      · next hcase =>
        rw [decide_eq_true_eq] at hcase
        omega
      · next hcase =>
        simp only [decide_eq_true_eq] at hcase
        omega
    have hsOlt : st.selection.startOffsetIdx <
        (blockAt st.content st.selection.startBlockIdx).chars.length :=
      lt_of_lt_of_le hso hwf
    have hk : st.selection.startBlockIdx < st.content.blocks.length := by
      by_contra hnk
      push_neg at hnk
      have hb0 : blockAt st.content st.selection.startBlockIdx = default := by
        unfold blockAt
        exact List.getD_eq_default _ _ hnk
      rw [hb0] at hsOlt
      have hde : (default : ContentBlock).chars = [] := rfl
      rw [hde] at hsOlt
      simp at hsOlt
    have hcur : getCurrentInlineStyle st =
        styleAt (blockAt st.content st.selection.startBlockIdx)
          st.selection.startOffsetIdx := by
      simp [getCurrentInlineStyle, hover, hcol, hsOlt]
    have hstyleu : (styleAt (blockAt st.content st.selection.startBlockIdx)
        st.selection.startOffsetIdx).has S = u :=
      huni _ hso (le_refl _)
    have htog1 : toggleInlineStyle st S =
        pushContent st (applyStyleInSel st.content st.selection S (!u)) := by
      cases u with
      | true => simp [toggleInlineStyle, hcol, hcur, hstyleu]
      | false => simp [toggleInlineStyle, hcol, hcur, hstyleu]
    have hb1 : blockAt (applyStyleInSel st.content st.selection S (!u))
        st.selection.startBlockIdx =
        { blockAt st.content st.selection.startBlockIdx with
          chars := mapIdxFrom (fun j ch =>
            if inSel st.selection st.selection.startBlockIdx j then
              { ch with styles := ch.styles.set S (!u) } else ch) 0
            (blockAt st.content st.selection.startBlockIdx).chars } :=
      blockAt_mapContentChars _ _ _ hk
    have hinSsO : inSel st.selection st.selection.startBlockIdx
        st.selection.startOffsetIdx = true := by
      rw [inSel_single_iff st.selection st.selection.anchorBlock _ _ hsBk heBk]
      exact ⟨hsBk, le_refl _, hso⟩
    have hstyleAt1 : styleAt (blockAt (applyStyleInSel st.content st.selection S (!u))
        st.selection.startBlockIdx) st.selection.startOffsetIdx =
        (styleAt (blockAt st.content st.selection.startBlockIdx)
          st.selection.startOffsetIdx).set S (!u) := by
      rw [hb1]
      unfold styleAt
      simp only []
      rw [mapIdxFrom_getD _ _ _ _ _ hsOlt]
      simp [hinSsO]
    have hsOlt1 : st.selection.startOffsetIdx <
        (blockAt (applyStyleInSel st.content st.selection S (!u))
          st.selection.startBlockIdx).chars.length := by
      rw [hb1]
      simpa [mapIdxFrom_length] using hsOlt
    have hcur1 : getCurrentInlineStyle
        (pushContent st (applyStyleInSel st.content st.selection S (!u))) =
        (styleAt (blockAt st.content st.selection.startBlockIdx)
          st.selection.startOffsetIdx).set S (!u) := by
      rw [← hstyleAt1]
      simp [getCurrentInlineStyle, pushContent, hcol, hsOlt1]
    have htog2 : toggleInlineStyle
        (pushContent st (applyStyleInSel st.content st.selection S (!u))) S =
        pushContent (pushContent st (applyStyleInSel st.content st.selection S (!u)))
          (applyStyleInSel (applyStyleInSel st.content st.selection S (!u))
            st.selection S u) := by
      cases u with
      | true =>
        simp only [Bool.not_true] at hcur1
        simp [toggleInlineStyle, pushContent_selection, pushContent_content, hcol, hcur1,
          Styles.has_set_self]
      | false =>
        simp only [Bool.not_false] at hcur1
        simp [toggleInlineStyle, pushContent_selection, pushContent_content, hcol, hcur1,
          Styles.has_set_self]
    have hcontent2 : applyStyleInSel (applyStyleInSel st.content st.selection S (!u))
        st.selection S u = st.content := by
      unfold applyStyleInSel
      rw [mapContentChars_comp]
      rw [mapContentChars_congr _ _
        (fun i j m => if inSel st.selection i j then { m with styles := m.styles.set S u } else m)
        (by
          intro i j m
          by_cases hin : inSel st.selection i j = true
          · simp [hin, Styles.set_set]
          · simp [hin])]
      apply mapContentChars_eq_self
      intro i j hi hj
      by_cases hin : inSel st.selection i j = true
      · obtain ⟨hik, hjlo, hjhi⟩ :=
          (inSel_single_iff st.selection st.selection.anchorBlock i j hsBk heBk).mp hin
        subst hik
        simp only [hin, if_true]
        have hsty : ((st.content.blocks.getD st.selection.anchorBlock default).chars.getD
            j default).styles.has S = u := by
          have h2 := huni j hjhi hjlo
          simpa [styleAt, blockAt, hsBk] using h2
        rw [Styles.set_self_of_has _ _ _ hsty]
      · simp [hin]
    rw [htog1, htog2]
    simp only [exportEditorStateToMarkdownString, pushContent, hcontent2]

/-- Counterexample for C4 as stated: in a document reading `ab` with only
`a` bold and the whole text selected, toggling BOLD twice serializes to
`**ab**` instead of the original `**a**b`. -/
theorem toggleStyleTwiceMixedCounterexample :
    exportEditorStateToMarkdownString
        (applyInlineStyle (applyInlineStyle mixedCoverageState .BOLD) .BOLD) ≠
      exportEditorStateToMarkdownString mixedCoverageState := by
  decide

/-- Witness for C4 (amended) at a concrete input: with uniform bold coverage
of the selection, toggling BOLD twice restores the serialized text. -/
theorem toggleStyleTwicePreservesTextWitness :
    exportEditorStateToMarkdownString
        (applyInlineStyle (applyInlineStyle uniformCoverageState .BOLD) .BOLD) =
      exportEditorStateToMarkdownString uniformCoverageState :=
  (toggleStyleTwicePreservesText uniformCoverageState .BOLD).2 true (by decide) rfl rfl
    (by decide) (by decide)

end FluentWysiwyg
